import Mathlib

/-!
Verification of the EMMA multicast dissemination core
(src/EMMA/ns3-sim/emma-lte-sim.cc, class MulticastSender and main).

Shallow embedding conventions:
  - payload bytes are modelled as `List Nat` (the contents are opaque to the code);
  - virtual time is modelled in milliseconds as `Nat`: `Seconds(1.0)` is 1000,
    `MilliSeconds(10)` is 10; all times occurring in the program are whole
    milliseconds, so no precision is lost;
  - the chunk size is the local constant `size_t chunk = 1024` of
    MulticastSender::Send; the recursive definitions take the chunk size as a
    parameter `C` (the source instantiates `C = chunkSize = 1024`) because the
    specification quantifies over the chunk size, with `0 < C` as hypothesis
    where needed; the guard `0 < C` in the recursion is vacuous at the source
    instantiation (1024 > 0) and only serves termination for the degenerate
    parameter `C = 0`, which the source never uses.
-/

namespace Emma

/-- Chunk size: the local constant `size_t chunk = 1024` in MulticastSender::Send. -/
def chunkSize : Nat := 1024

/-- Start delay: `Simulator::Schedule(Seconds(1.0), ...)` in
MulticastSender::StartApplication, in milliseconds. -/
def startDelay : Nat := 1000

/-- Inter-chunk interval: `Simulator::Schedule(MilliSeconds(10), ...)` in
MulticastSender::Send, in milliseconds. -/
def interval : Nat := 10

/-- Application start time: `sender->SetStartTime(Seconds(0.0))` in main, so
StartApplication runs at virtual time 0. -/
def appStartTime : Nat := 0

/-- One transmit event: at virtual time `time`, the chunk covering
payload bytes [offset, offset+len) with contents `bytes` is sent. -/
structure TransmitEvent where
  time : Nat
  offset : Nat
  len : Nat
  bytes : List Nat
  deriving Repr, DecidableEq

/-- The full sequence of transmit events produced by the self-rescheduling
MulticastSender::Send chain, starting from a call Send(buffer, offset) executed
at virtual time `t`.  Translates the body

  if (offset < buffer.size()) then
    len = min(chunk, buffer.size() - offset);
    send bytes [offset, offset+len);
    Schedule(MilliSeconds(10), Send, buffer, offset + len)

collecting one event per executed send. -/
def sendTrace (C : Nat) (buffer : List Nat) (offset t : Nat) : List TransmitEvent :=
  if 0 < C ∧ offset < buffer.length then
    ⟨t, offset, min C (buffer.length - offset),
      (buffer.drop offset).take (min C (buffer.length - offset))⟩ ::
      sendTrace C buffer (offset + min C (buffer.length - offset)) (t + interval)
  else []
termination_by buffer.length - offset
decreasing_by omega

/-- Result of one single invocation of MulticastSender::Send: either it sends the
chunk [offset, offset+len) and registers exactly one future Send event at
`nextOffset` and virtual time `nextTime`, or it does nothing at all. -/
inductive StepResult where
  | sent (offset len nextOffset nextTime : Nat) : StepResult
  | idle : StepResult
  deriving Repr, DecidableEq

/-- One invocation of MulticastSender::Send at current virtual time `now`:
inside the `offset < buffer.size()` branch it sends one chunk and schedules the
successor Send at `offset + len` for `now + interval`; otherwise it returns
without sending or scheduling anything. -/
def sendEventStep (C : Nat) (buffer : List Nat) (offset now : Nat) : StepResult :=
  if offset < buffer.length then
    StepResult.sent offset (min C (buffer.length - offset))
      (offset + min C (buffer.length - offset)) (now + interval)
  else StepResult.idle

/-- Whether a step registered a future event with the simulator. -/
def stepSchedules : StepResult → Bool
  | StepResult.sent _ _ _ _ => true
  | StepResult.idle => false

/-- The offset the next scheduled Send invocation will run with (the state
transition of the sender offset): `offset + len` inside the sending branch,
unchanged outside it (no event is scheduled there, so the offset never moves
again). -/
def stepNext (C : Nat) (buffer : List Nat) (offset : Nat) : Nat :=
  if offset < buffer.length then offset + min C (buffer.length - offset) else offset

/-- Decides that a list of transmit events is contiguously chained starting at
offset `o`: the first event starts exactly at `o` and each later event starts
where the previous one ended. -/
def chainedFrom (o : Nat) : List TransmitEvent → Bool
  | [] => true
  | e :: rest => (e.offset == o) && chainedFrom (o + e.len) rest

/-- Total, bounds-checked read of the slice [offset, offset+len) of a buffer:
`none` is the out-of-bounds branch, modelling what the raw pointer read
`&buffer[offset]` of length `len` would touch. -/
def readSlice (buffer : List Nat) (offset len : Nat) : Option (List Nat) :=
  if offset + len ≤ buffer.length then some ((buffer.drop offset).take len) else none

/-- Observable outcome of one invocation of MulticastSender::Send with the
transport result made explicit: `sendResult` is `some r` when a socket send was
attempted and the transport reported success `r` (`none` when no send was
attempted), `scheduledNext` is the offset of the successor event registered
with the simulator (if any), and `errorSurfaced` records whether the step
reported an error to its caller. -/
structure SendOutcome where
  sendResult : Option Bool
  scheduledNext : Option Nat
  errorSurfaced : Bool
  deriving Repr, DecidableEq

/-- One invocation of MulticastSender::Send with a transport oracle `sendOk`
giving the success of the socket send at each offset.  The C++ body calls
`m_socket->Send(p)` and discards its return value, then unconditionally calls
`Simulator::Schedule` for the successor; the function returns void, so no error
is ever surfaced to the caller. -/
def sendStepTransport (sendOk : Nat → Bool) (C : Nat) (buffer : List Nat) (offset : Nat) :
    SendOutcome :=
  if offset < buffer.length then
    { sendResult := some (sendOk offset)
      scheduledNext := some (offset + min C (buffer.length - offset))
      errorSurfaced := false }
  else
    { sendResult := none, scheduledNext := none, errorSurfaced := false }

/-- Loading the payload in StartApplication:
`std::ifstream file(m_filename); std::vector<char> buffer(istreambuf_iterator(file), ...)`.
A missing or unreadable file leaves the stream in a failed state, so the
istreambuf iterator is immediately at end and the buffer comes out empty;
`some bytes` models a readable file with the given contents. -/
def readPayload (file : Option (List Nat)) : List Nat :=
  match file with
  | some bytes => bytes
  | none => []

/-- The sequence of transmit events started by MulticastSender::StartApplication:
it schedules the first Send(buffer, 0) at `now + Seconds(1.0)`, i.e. at
virtual time `appStartTime + startDelay`. -/
def startApplication (buffer : List Nat) : List TransmitEvent :=
  sendTrace chunkSize buffer 0 (appStartTime + startDelay)

/-- Whole-run outcome of `main` for a given input file. -/
structure SimOutcome where
  exitCode : Nat
  transmits : List TransmitEvent
  deriving Repr, DecidableEq

/-- The run of `main`: the payload file is read by StartApplication (missing
file giving an empty buffer), the sender transmits, and main always ends with
`return 0` — there is no error path in the program. -/
def runMain (file : Option (List Nat)) : SimOutcome :=
  { exitCode := 0, transmits := startApplication (readPayload file) }

/-- One logged reception: the sink RecvCallback lambda logs the receiving node
id and the current virtual time once per packet it receives. -/
structure ReceptionEvent where
  receiverId : Nat
  time : Nat
  deriving Repr, DecidableEq

/-- Log of one receiver: the RecvCallback lambda appends one entry per
delivered packet.  Under the lossless, order-preserving transport assumed in
the scope of the specification, the packets delivered to each bound receiver
are exactly the chunks sent, in send order. -/
def receptionLog (receiverId : Nat) (sent : List TransmitEvent) : List ReceptionEvent :=
  sent.map (fun e => ReceptionEvent.mk receiverId e.time)

/-! Helper lemmas about the transmit chain. -/

theorem sendTrace_cons (C : Nat) (buffer : List Nat) (offset t : Nat)
    (hC : 0 < C) (ho : offset < buffer.length) :
    sendTrace C buffer offset t =
      ⟨t, offset, min C (buffer.length - offset),
        (buffer.drop offset).take (min C (buffer.length - offset))⟩ ::
        sendTrace C buffer (offset + min C (buffer.length - offset)) (t + interval) := by
  rw [sendTrace]
  simp [hC, ho]

theorem sendTrace_nil (C : Nat) (buffer : List Nat) (offset t : Nat)
    (h : buffer.length ≤ offset) :
    sendTrace C buffer offset t = [] := by
  rw [sendTrace]
  simp
  omega

theorem sendTrace_ne_nil (C : Nat) (buffer : List Nat) (offset t : Nat)
    (hC : 0 < C) (ho : offset < buffer.length) :
    sendTrace C buffer offset t ≠ [] := by
  rw [sendTrace_cons C buffer offset t hC ho]
  simp

theorem mem_sendTrace (C : Nat) (buffer : List Nat) :
    ∀ offset t, ∀ e ∈ sendTrace C buffer offset t,
      offset ≤ e.offset ∧ e.offset < buffer.length ∧
      e.len = min C (buffer.length - e.offset) ∧
      e.bytes = (buffer.drop e.offset).take e.len := by
  intro offset t
  induction offset, t using sendTrace.induct C buffer with
  | case1 offset t h ih =>
    intro e he
    rw [sendTrace_cons C buffer offset t h.1 h.2] at he
    rcases List.mem_cons.mp he with rfl | he2
    · exact ⟨Nat.le_refl _, h.2, rfl, rfl⟩
    · obtain ⟨h1, h2, h3, h4⟩ := ih e he2
      exact ⟨by omega, h2, h3, h4⟩
  | case2 offset t h =>
    intro e he
    rw [sendTrace] at he
    simp [h] at he

theorem sendTrace_sum_len (C : Nat) (buffer : List Nat) (hC : 0 < C) :
    ∀ offset t, ((sendTrace C buffer offset t).map (fun e => e.len)).sum =
      buffer.length - offset := by
  intro offset t
  induction offset, t using sendTrace.induct C buffer with
  | case1 offset t h ih =>
    rw [sendTrace_cons C buffer offset t h.1 h.2]
    simp only [List.map_cons, List.sum_cons, ih]
    have := h.2
    omega
  | case2 offset t h =>
    rw [sendTrace]
    simp [h]
    omega

theorem sendTrace_flatten (C : Nat) (buffer : List Nat) (hC : 0 < C) :
    ∀ offset t, ((sendTrace C buffer offset t).map (fun e => e.bytes)).flatten =
      buffer.drop offset := by
  intro offset t
  induction offset, t using sendTrace.induct C buffer with
  | case1 offset t h ih =>
    rw [sendTrace_cons C buffer offset t h.1 h.2]
    simp only [List.map_cons, List.flatten_cons, ih]
    rw [← List.drop_drop, List.take_append_drop]
  | case2 offset t h =>
    rw [sendTrace]
    simp [h]
    omega

theorem sendTrace_chainedFrom (C : Nat) (buffer : List Nat) :
    ∀ offset t, chainedFrom offset (sendTrace C buffer offset t) = true := by
  intro offset t
  induction offset, t using sendTrace.induct C buffer with
  | case1 offset t h ih =>
    rw [sendTrace_cons C buffer offset t h.1 h.2]
    simp [chainedFrom, ih]
  | case2 offset t h =>
    rw [sendTrace]
    simp [h, chainedFrom]

theorem sendTrace_chain_time (C : Nat) (buffer : List Nat) :
    ∀ offset t, List.Chain' (fun a b => b.time = a.time + interval)
      (sendTrace C buffer offset t) := by
  intro offset t
  induction offset, t using sendTrace.induct C buffer with
  | case1 offset t h ih =>
    rw [sendTrace_cons C buffer offset t h.1 h.2]
    refine List.chain'_cons'.mpr ⟨?_, ih⟩
    intro y hy
    by_cases h2 : offset + min C (buffer.length - offset) < buffer.length
    · rw [sendTrace_cons C buffer _ _ h.1 h2] at hy
      simp at hy
      subst hy
      rfl
    · rw [sendTrace_nil C buffer _ _ (by omega)] at hy
      simp at hy
  | case2 offset t h =>
    rw [sendTrace]
    simp [h]

theorem sendTrace_chain_offset (C : Nat) (buffer : List Nat) :
    ∀ offset t, List.Chain' (fun a b => a.offset < b.offset)
      (sendTrace C buffer offset t) := by
  intro offset t
  induction offset, t using sendTrace.induct C buffer with
  | case1 offset t h ih =>
    rw [sendTrace_cons C buffer offset t h.1 h.2]
    refine List.chain'_cons'.mpr ⟨?_, ih⟩
    intro y hy
    by_cases h2 : offset + min C (buffer.length - offset) < buffer.length
    · rw [sendTrace_cons C buffer _ _ h.1 h2] at hy
      simp at hy
      subst hy
      simp
      omega
    · rw [sendTrace_nil C buffer _ _ (by omega)] at hy
      simp at hy
  | case2 offset t h =>
    rw [sendTrace]
    simp [h]

theorem sendTrace_length (C : Nat) (buffer : List Nat) (hC : 0 < C) :
    ∀ offset t, (sendTrace C buffer offset t).length =
      (buffer.length - offset + C - 1) / C := by
  intro offset t
  induction offset, t using sendTrace.induct C buffer with
  | case1 offset t h ih =>
    rw [sendTrace_cons C buffer offset t h.1 h.2]
    simp only [List.length_cons, ih]
    have hd : 1 ≤ buffer.length - offset := by
      have := h.2
      omega
    have hrw : buffer.length - offset + C - 1 = (buffer.length - offset - 1) + C := by omega
    rw [hrw, Nat.add_div_right _ hC]
    by_cases hc : buffer.length - offset ≤ C
    · have h1 : buffer.length - (offset + min C (buffer.length - offset)) = 0 := by omega
      rw [h1]
      have h2 : (0 + C - 1) / C = 0 := Nat.div_eq_of_lt (by omega)
      have h3 : (buffer.length - offset - 1) / C = 0 := Nat.div_eq_of_lt (by omega)
      omega
    · have h1 : buffer.length - (offset + min C (buffer.length - offset)) + C - 1 =
          buffer.length - offset - 1 := by omega
      rw [h1]
  | case2 offset t h =>
    rw [sendTrace]
    simp [h]
    have h2 : buffer.length - offset = 0 := by omega
    rw [h2]
    exact (Nat.div_eq_of_lt (by omega)).symm

theorem getLast_cons_ne (a : TransmitEvent) (l : List TransmitEvent) (h : l ≠ []) :
    (a :: l).getLast? = l.getLast? := by
  cases l with
  | nil => exact absurd rfl h
  | cons b m => exact List.getLast?_cons_cons

theorem sendTrace_getLast_len (C : Nat) (buffer : List Nat) (hC : 0 < C) :
    ∀ offset t, offset < buffer.length → C ∣ (buffer.length - offset) →
      ((sendTrace C buffer offset t).getLast?).map (fun e => e.len) = some C := by
  intro offset t
  induction offset, t using sendTrace.induct C buffer with
  | case1 offset t h ih =>
    intro ho hdvd
    rw [sendTrace_cons C buffer offset t h.1 h.2]
    by_cases h2 : offset + min C (buffer.length - offset) < buffer.length
    · have hmin : min C (buffer.length - offset) = C := by omega
      rw [getLast_cons_ne _ _ (sendTrace_ne_nil C buffer _ _ h.1 h2)]
      apply ih h2
      have hsub : buffer.length - (offset + min C (buffer.length - offset)) =
          (buffer.length - offset) - C := by omega
      rw [hsub]
      exact Nat.dvd_sub' hdvd dvd_rfl
    · rw [sendTrace_nil C buffer _ _ (by omega)]
      simp
      have hle : C ≤ buffer.length - offset := Nat.le_of_dvd (by omega) hdvd
      omega
  | case2 offset t h =>
    intro ho hdvd
    exact ((h ⟨hC, ho⟩).elim)

/-! Claim theorems. -/

/-- C1: for every payload of length L and chunk size C > 0, the chunks sent by
the transmit chain exactly partition [0, L): the chunks are contiguously
chained starting at offset 0 (the first chunk starts at 0, each subsequent
offset is the previous offset plus the previous length), every sent chunk has
length min(C, L - offset) and positive length (so length 0 occurs only when
L = 0, in which case no chunk is sent at all), the lengths sum to L, and the
concatenation of the sent bytes in send order equals the payload. -/
theorem c1_partition (C : Nat) (buffer : List Nat) (t : Nat) (hC : 0 < C) :
    chainedFrom 0 (sendTrace C buffer 0 t) = true ∧
    (∀ e ∈ sendTrace C buffer 0 t,
      e.len = min C (buffer.length - e.offset) ∧ 0 < e.len) ∧
    ((sendTrace C buffer 0 t).map (fun e => e.len)).sum = buffer.length ∧
    ((sendTrace C buffer 0 t).map (fun e => e.bytes)).flatten = buffer := by
  refine ⟨sendTrace_chainedFrom C buffer 0 t, ?_, ?_, ?_⟩
  · intro e he
    obtain ⟨h1, h2, h3, h4⟩ := mem_sendTrace C buffer 0 t e he
    exact ⟨h3, by omega⟩
  · simpa using sendTrace_sum_len C buffer hC 0 t
  · simpa using sendTrace_flatten C buffer hC 0 t

/-- Witness for c1_partition at chunk size 1024 and payload [5, 6, 7]. -/
theorem c1_partition_witness :
    chainedFrom 0 (sendTrace 1024 [5, 6, 7] 0 1000) = true ∧
    ((sendTrace 1024 [5, 6, 7] 0 1000).map (fun e => e.len)).sum =
      ([5, 6, 7] : List Nat).length ∧
    ((sendTrace 1024 [5, 6, 7] 0 1000).map (fun e => e.bytes)).flatten = [5, 6, 7] := by
  obtain ⟨h1, _, h3, h4⟩ := c1_partition 1024 [5, 6, 7] 1000 (by decide)
  exact ⟨h1, h3, h4⟩

/-- C2 counterexample: with payload [37] (L = 1), the transmit step at offset 0
has offset + len = 1 ≥ L, yet the step still registers a further Send event
with the simulator (the trailing no-op invocation at offset 1), contradicting
the claim that such a step transitions to terminal and schedules no further
event of any kind. -/
theorem c2_counterexample :
    ([37] : List Nat).length ≤ 0 + min 1024 (([37] : List Nat).length - 0) ∧
    stepSchedules (sendEventStep 1024 [37] 0 1000) = true := by decide

/-- C2 (amended): every transmit step executed with offset < L sends one chunk
and schedules exactly one successor Send at offset + len at virtual time
now + interval, even when offset + len ≥ L; in that case the scheduled
successor invocation is a no-op that sends nothing and schedules nothing, and
the chain of sent chunks from this step is exactly this chunk followed by the
successor trace. -/
theorem c2_step_schedule (C : Nat) (buffer : List Nat) (offset now : Nat)
    (h : offset < buffer.length) :
    sendEventStep C buffer offset now =
      StepResult.sent offset (min C (buffer.length - offset))
        (offset + min C (buffer.length - offset)) (now + interval) ∧
    (∀ t2, buffer.length ≤ offset + min C (buffer.length - offset) →
      sendEventStep C buffer (offset + min C (buffer.length - offset)) t2 =
        StepResult.idle) ∧
    (0 < C → sendTrace C buffer offset now =
      ⟨now, offset, min C (buffer.length - offset),
        (buffer.drop offset).take (min C (buffer.length - offset))⟩ ::
        sendTrace C buffer (offset + min C (buffer.length - offset)) (now + interval)) := by
  refine ⟨?_, ?_, ?_⟩
  · simp [sendEventStep, h]
  · intro t2 h2
    simp only [sendEventStep]
    rw [if_neg (by omega)]
  · intro hC
    exact sendTrace_cons C buffer offset now hC h

/-- Witness for c2_step_schedule at chunk size 1024, payload [37], offset 0,
virtual time 1000. -/
theorem c2_step_schedule_witness :
    sendEventStep 1024 [37] 0 1000 = StepResult.sent 0 1 1 1010 ∧
    sendEventStep 1024 [37] 1 1010 = StepResult.idle := by
  obtain ⟨h1, h2, _⟩ := c2_step_schedule 1024 [37] 0 1000 (by decide)
  exact ⟨h1, h2 1010 (by decide)⟩

/-- C3: with chunk size C > 0 the number of transmit events equals
(L + C - 1) / C, the ceiling of L / C in natural division (which is 0 when
L = 0); and when L is nonzero and exactly divisible by C, the last sent chunk
has length exactly C rather than a short trailing chunk. -/
theorem c3_chunk_count (C : Nat) (buffer : List Nat) (t : Nat) (hC : 0 < C) :
    (sendTrace C buffer 0 t).length = (buffer.length + C - 1) / C ∧
    (buffer.length = 0 → (sendTrace C buffer 0 t).length = 0) ∧
    (0 < buffer.length → C ∣ buffer.length →
      ((sendTrace C buffer 0 t).getLast?).map (fun e => e.len) = some C) := by
  refine ⟨?_, ?_, ?_⟩
  · simpa using sendTrace_length C buffer hC 0 t
  · intro h0
    rw [sendTrace_nil C buffer 0 t (by omega)]
    rfl
  · intro hL hdvd
    exact sendTrace_getLast_len C buffer hC 0 t hL (by simpa using hdvd)

/-- Witness for c3_chunk_count at chunk size 2 and payload [1, 2, 3, 4]:
two chunks, and the last chunk has the full length 2. -/
theorem c3_chunk_count_witness :
    (sendTrace 2 [1, 2, 3, 4] 0 0).length =
      (([1, 2, 3, 4] : List Nat).length + 2 - 1) / 2 ∧
    ((sendTrace 2 [1, 2, 3, 4] 0 0).getLast?).map (fun e => e.len) = some 2 := by
  obtain ⟨h1, _, h3⟩ := c3_chunk_count 2 [1, 2, 3, 4] 0 (by decide)
  exact ⟨h1, h3 (by decide) (by decide)⟩

/-- C4 counterexample: with a transport oracle that fails every send and a
payload of 1025 bytes (two chunks at chunk size 1024), the step at offset 0
attempts a send that fails, yet it still schedules the successor transmit step
at offset 1024 (which is again a sending step, since 1024 < 1025) and surfaces
no error — contradicting the claim that a failed send abandons the remaining
sequence and is surfaced to the caller. -/
theorem c4_counterexample :
    (sendStepTransport (fun _ => false) 1024 (List.replicate 1025 0) 0).sendResult =
      some false ∧
    (sendStepTransport (fun _ => false) 1024 (List.replicate 1025 0) 0).scheduledNext =
      some 1024 ∧
    1024 < (List.replicate 1025 (0 : Nat)).length ∧
    (sendStepTransport (fun _ => false) 1024 (List.replicate 1025 0) 0).errorSurfaced =
      false := by
  norm_num [sendStepTransport]

/-- C4 (amended): MulticastSender::Send ignores the result of the underlying
socket send entirely: for any two transport oracles a step attempts the same
send and registers exactly the same successor event, and no invocation ever
surfaces an error to its caller — a mid-sequence transport failure neither
stops the remaining schedule nor is reported, and chunks already sent are
untouched (the outcome of every step is independent of all transport results). -/
theorem c4_send_result_ignored (sendOk sendOk2 : Nat → Bool) (C : Nat)
    (buffer : List Nat) (offset : Nat) :
    (sendStepTransport sendOk C buffer offset).scheduledNext =
      (sendStepTransport sendOk2 C buffer offset).scheduledNext ∧
    (sendStepTransport sendOk C buffer offset).errorSurfaced = false := by
  unfold sendStepTransport
  split <;> simp

/-- C5: for every nonempty payload the first transmit event occurs at virtual
time exactly startDelay (the application starts at virtual time 0 and
StartApplication schedules the first Send one second later), and the
virtual-time gap between any two consecutive transmit events is exactly the
configured interval. -/
theorem c5_cadence (buffer : List Nat) (h : buffer ≠ []) :
    ((startApplication buffer).head?).map (fun e => e.time) = some startDelay ∧
    List.Chain' (fun a b => b.time = a.time + interval) (startApplication buffer) := by
  constructor
  · have hlen : 0 < buffer.length := List.length_pos.mpr h
    rw [startApplication, sendTrace_cons chunkSize buffer 0 _ (by decide) hlen]
    rfl
  · exact sendTrace_chain_time chunkSize buffer 0 (appStartTime + startDelay)

/-- Witness for c5_cadence at payload [9]. -/
theorem c5_cadence_witness :
    ((startApplication [9]).head?).map (fun e => e.time) = some startDelay ∧
    List.Chain' (fun a b => b.time = a.time + interval) (startApplication [9]) :=
  c5_cadence [9] (by simp)

/-- C6: for the empty payload the sender performs zero transmissions, the very
first Send invocation is already a no-op (offset 0 is terminal since
offset ≥ L = 0, and it sends and schedules nothing), and every receiver log
over the sent chunks is empty. -/
theorem c6_empty_payload :
    startApplication [] = [] ∧
    sendEventStep chunkSize [] 0 (appStartTime + startDelay) = StepResult.idle ∧
    (∀ id, receptionLog id (startApplication []) = []) := by
  have h0 : startApplication [] = [] := sendTrace_nil chunkSize [] 0 _ (by simp)
  refine ⟨h0, rfl, ?_⟩
  intro id
  rw [h0]
  rfl

/-- C7 counterexample: with the payload file missing, the run completes
normally with exit code 0 — not a distinguishable error outcome — so the
missing input file is neither fatal nor reported to the caller, although no
transmissions occur. -/
theorem c7_counterexample :
    (runMain none).exitCode = 0 ∧ (runMain none).transmits = [] := by
  refine ⟨rfl, ?_⟩
  exact sendTrace_nil chunkSize [] 0 _ (by simp)

/-- C7 (amended): a missing or unreadable payload file is silently treated as
an empty payload: StartApplication reads an empty buffer, no transmissions
occur, no error is reported, and main completes normally with exit code 0. -/
theorem c7_missing_file (file : Option (List Nat)) (h : file = none) :
    readPayload file = [] ∧ (runMain file).transmits = [] ∧
    (runMain file).exitCode = 0 := by
  subst h
  exact ⟨rfl, sendTrace_nil chunkSize [] 0 _ (by simp), rfl⟩

/-- Witness for c7_missing_file at the missing input file. -/
theorem c7_missing_file_witness :
    readPayload none = [] ∧ (runMain none).transmits = [] ∧
    (runMain none).exitCode = 0 :=
  c7_missing_file none rfl

/-- C8: the sender state machine: the offset starts at 0 and advances by the
sent chunk length after each send (the sent chunks are chained from offset 0),
an invocation of Send is a no-op exactly when offset ≥ L (the terminal
states), and across the transmit steps of a run the offsets are strictly
increasing, so no transition returns to a prior state. -/
theorem c8_state_machine (C : Nat) (buffer : List Nat) (t now : Nat) (hC : 0 < C) :
    chainedFrom 0 (sendTrace C buffer 0 t) = true ∧
    (∀ offset, sendEventStep C buffer offset now = StepResult.idle ↔
      buffer.length ≤ offset) ∧
    List.Chain' (fun a b => a.offset < b.offset) (sendTrace C buffer 0 t) := by
  refine ⟨sendTrace_chainedFrom C buffer 0 t, ?_, sendTrace_chain_offset C buffer 0 t⟩
  intro offset
  unfold sendEventStep
  split <;> simp <;> omega

/-- Witness for c8_state_machine at chunk size 1024 and payload [5, 6]. -/
theorem c8_state_machine_witness :
    chainedFrom 0 (sendTrace 1024 [5, 6] 0 1000) = true ∧
    (∀ offset, sendEventStep 1024 [5, 6] offset 0 = StepResult.idle ↔
      ([5, 6] : List Nat).length ≤ offset) ∧
    List.Chain' (fun a b => a.offset < b.offset) (sendTrace 1024 [5, 6] 0 1000) :=
  c8_state_machine 1024 [5, 6] 1000 0 (by decide)

/-- C9: every chunk the sender constructs reads only in-bounds payload bytes:
each sent chunk has offset < L and offset + len ≤ L, and the bounds-checked
slice read returns the chunk bytes through its in-bounds branch — the
out-of-bounds branch of the total embedding of the pointer read is
unreachable at every sent chunk. -/
theorem c9_bounds (C : Nat) (buffer : List Nat) (t : Nat) (hC : 0 < C) :
    ∀ e ∈ sendTrace C buffer 0 t,
      e.offset < buffer.length ∧ e.offset + e.len ≤ buffer.length ∧
      readSlice buffer e.offset e.len = some e.bytes := by
  intro e he
  obtain ⟨h1, h2, h3, h4⟩ := mem_sendTrace C buffer 0 t e he
  have hb : e.offset + e.len ≤ buffer.length := by omega
  refine ⟨h2, hb, ?_⟩
  unfold readSlice
  rw [if_pos hb, h4]

/-- Witness for c9_bounds at the single chunk of payload [5, 6]. -/
theorem c9_bounds_witness :
    (⟨1000, 0, 2, [5, 6]⟩ : TransmitEvent).offset < ([5, 6] : List Nat).length ∧
    (⟨1000, 0, 2, [5, 6]⟩ : TransmitEvent).offset +
      (⟨1000, 0, 2, [5, 6]⟩ : TransmitEvent).len ≤ ([5, 6] : List Nat).length ∧
    readSlice [5, 6] (⟨1000, 0, 2, [5, 6]⟩ : TransmitEvent).offset
      (⟨1000, 0, 2, [5, 6]⟩ : TransmitEvent).len =
      some (⟨1000, 0, 2, [5, 6]⟩ : TransmitEvent).bytes :=
  c9_bounds 1024 [5, 6] 1000 (by decide) ⟨1000, 0, 2, [5, 6]⟩ (by simp [sendTrace])

theorem stepNext_iterate (C : Nat) (buffer : List Nat) (hC : 0 < C) :
    ∀ n offset, buffer.length ≤ offset + n →
      buffer.length ≤ (stepNext C buffer)^[n] offset := by
  intro n
  induction n with
  | zero =>
    intro o h
    simpa using h
  | succ k ih =>
    intro o h
    rw [Function.iterate_succ_apply]
    apply ih
    unfold stepNext
    split <;> omega

/-- C10: the self-scheduled transmit chain terminates after finitely many
events: every invocation with offset < L sends a chunk of length at least 1,
so the offset strictly increases at every sending step, after at most L state
transitions the offset has reached L, and every invocation at offset ≥ L
sends nothing and schedules nothing. -/
theorem c10_termination (C : Nat) (buffer : List Nat) (hC : 0 < C) :
    (∀ offset, offset < buffer.length → 1 ≤ min C (buffer.length - offset)) ∧
    (∀ offset, offset < buffer.length → offset < stepNext C buffer offset) ∧
    buffer.length ≤ (stepNext C buffer)^[buffer.length] 0 ∧
    (∀ offset now, buffer.length ≤ offset →
      sendEventStep C buffer offset now = StepResult.idle) := by
  refine ⟨?_, ?_, ?_, ?_⟩
  · intro offset h
    omega
  · intro offset h
    unfold stepNext
    rw [if_pos h]
    omega
  · exact stepNext_iterate C buffer hC buffer.length 0 (by omega)
  · intro offset now h
    unfold sendEventStep
    rw [if_neg (by omega)]

/-- Witness for c10_termination at chunk size 1024 and payload [5, 6]. -/
theorem c10_termination_witness :
    ([5, 6] : List Nat).length ≤ (stepNext 1024 [5, 6])^[([5, 6] : List Nat).length] 0 ∧
    sendEventStep 1024 [5, 6] 2 1020 = StepResult.idle := by
  obtain ⟨_, _, h3, h4⟩ := c10_termination 1024 [5, 6] (by decide)
  exact ⟨h3, h4 2 1020 (by decide)⟩

end Emma
